import Mathlib

/-!
Verification of the shared task-management core of a command-line todo manager
(`todo/commands/base.py`, `todo/commands/add.py`, `todo/commands/prio.py`).

The Python code is shallowly embedded: every Python string manipulation is
modelled on `List Char` (Lean's core `String` functions do not reduce in the
kernel), dictionaries with optional fields become structures with `Option`
fields, and the two mutating commands become pure functions from the
pre-state of the project file and the command-line input to the list of
file writes they perform plus an optional error.  ASCII case folding
(`Char.toLower`) models Python's `str.lower` on the ASCII titles and
priority names the program works with.
-/

/-- Lowercase a character list; model of Python `str.lower()` (ASCII model). -/

def strLower (cs : List Char) : List Char := cs.map Char.toLower

/-- Remove leading and trailing whitespace; model of Python `str.strip()`. -/

def trimChars (cs : List Char) : List Char :=
  ((cs.dropWhile Char.isWhitespace).reverse.dropWhile Char.isWhitespace).reverse

/-- Split a character list at every comma; model of Python `str.split(',')`
(which keeps empty pieces, and returns one piece for input without commas). -/

def splitComma : List Char → List (List Char)
  | [] => [[]]
  | ',' :: rest => [] :: splitComma rest
  | c :: rest =>
    match splitComma rest with
    | [] => [[c]]
    | p :: ps => (c :: p) :: ps

/-- One task record, as stored in the `todos` list of `todos.json`.
`done` and `priority` are `Option` because legacy records may lack them
(`base.py` reads them with `todo.get('done', False)` and
`todo.get('priority', DEFAULT_PRIORITY)`). -/

structure Todo where
  title : String
  done : Option Bool
  priority : Option String
deriving DecidableEq, Repr

/-- The parsed content of the project file as the commands read it:
`data['name']` and `data['todos']` are each looked up inside `try/except`,
so either may be absent. -/

structure ProjData where
  name : Option String
  todos : Option (List Todo)
deriving DecidableEq, Repr

/-- The dictionary passed to `Command.update_project`: both commands build
`{'name': name, 'todos': todos}` with both fields present. -/

structure SaveData where
  name : String
  todos : List Todo
deriving DecidableEq, Repr

/-- State of the project file when it exists: either unparseable JSON
(`json.JSONDecodeError` branch) or a parsed document. -/

inductive FileContent where
  | corrupt
  | good (d : ProjData)
deriving DecidableEq, Repr

/-- Valid priority levels, from `Command.__init__`: `self.PRIORITY_LEVELS = ['low', 'medium', 'high']`. -/

def PRIORITY_LEVELS : List String := ["low", "medium", "high"]

/-- Default priority, from `Command.__init__`: `self.DEFAULT_PRIORITY = 'medium'`. -/

def DEFAULT_PRIORITY : String := "medium"

/-- Default project name, from `Command.__init__`: `self.UNTITLED_NAME = 'Untitled'`. -/

def UNTITLED_NAME : String := "Untitled"

/-- Message raised by `Command.validate_priority`; it interpolates the
rejected value and `', '.join(self.PRIORITY_LEVELS)`. -/

def invalidPriorityMessage (p : String) : String :=
  "Invalid priority: " ++ p ++ ". Must be one of: low, medium, high"

/-- Model of `Command.validate_priority`: lowercase the argument, accept it
exactly when the lowercase form is in `PRIORITY_LEVELS`, otherwise raise
`ValueError` with a message naming the rejected value and the valid set. -/

def validatePriority (p : String) : Except String String :=
  let pl := String.mk (strLower p.data)
  if pl ∈ PRIORITY_LEVELS then Except.ok pl else Except.error (invalidPriorityMessage p)

/-- Model of the `priority_rank` lookup in `Command.sort_todos_by_priority`:
`{'high': 0, 'medium': 1, 'low': 2}.get(priority, 1)`. -/

def priorityRank (p : String) : Nat :=
  if p = "high" then 0 else if p = "medium" then 1 else if p = "low" then 2 else 1

/-- Model of the `sort_key` closure in `Command.sort_todos_by_priority`:
`(todo.get('done', False), priority_rank.get(todo.get('priority', DEFAULT_PRIORITY), 1))`. -/

def sortKey (t : Todo) : Bool × Nat :=
  (t.done.getD false, priorityRank (t.priority.getD DEFAULT_PRIORITY))

/-- Python's ordering on the `(done, rank)` key tuples: lexicographic with
`False < True` on the first component. -/

def keyLE (a b : Bool × Nat) : Prop :=
  (a.1 = false ∧ b.1 = true) ∨ (a.1 = b.1 ∧ a.2 ≤ b.2)

instance instDecidableKeyLE (a b : Bool × Nat) : Decidable (keyLE a b) := by
  unfold keyLE; infer_instance

/-- Insert a task into a list in front of the first task whose key is not
below it (helper for the stable-sort model of `sorted(todos, key=sort_key)`). -/

def orderedInsertKey (a : Todo) : List Todo → List Todo
  | [] => [a]
  | b :: l => if keyLE (sortKey a) (sortKey b) then a :: b :: l else b :: orderedInsertKey a l

/-- Model of `Command.sort_todos_by_priority`, i.e. of
`sorted(todos, key=sort_key)`: Python's `sorted` is a stable sort by the
key, and every stable sort under a total preorder computes the same list,
so it is modelled as a stable insertion sort under `keyLE`. -/

def sortTodosByPriority : List Todo → List Todo
  | [] => []
  | a :: l => orderedInsertKey a (sortTodosByPriority l)

/-- Digit-string to number; helper for the model of Python `int()`. -/

def pyDigits (cs : List Char) : Option Nat :=
  if cs ≠ [] ∧ cs.all Char.isDigit then
    some (cs.foldl (fun a c => 10 * a + (c.toNat - 48)) 0)
  else none

/-- Model of Python `int(s)` on a string: surrounding whitespace is
ignored, an optional single `+` or `-` sign precedes one or more ASCII
digits, anything else raises `ValueError` (modelled as `none`; Python's
underscore digit grouping and non-ASCII digits are not modelled, no claim
exercises them). -/

def pyParseInt (s : String) : Option Int :=
  match trimChars s.data with
  | '-' :: rest => (pyDigits rest).map (fun n => -(n : Int))
  | '+' :: rest => (pyDigits rest).map (fun n => (n : Int))
  | rest => (pyDigits rest).map (fun n => (n : Int))

/-- Scan for the first task whose lowercased title equals `key`, carrying
the current 0-based index; models the `for index, todo in enumerate(todos)`
loop in `PrioCommand.find_todo_by_identifier`. -/

def findTitleFrom : List Todo → List Char → Nat → Option (Nat × Todo)
  | [], _, _ => none
  | t :: ts, key, i =>
    if strLower t.title.data = key then some (i, t) else findTitleFrom ts key (i + 1)

/-- Model of `PrioCommand.find_todo_by_identifier`: try `int(identifier)`;
on success use it as a 1-based position (`list_index = int(identifier) - 1`
guarded by `0 <= list_index < len(todos)`); on `ValueError` fall back to
the first case-insensitive exact title match in list order; `(None, None)`
becomes `none`. -/

def findTodoByIdentifier (todos : List Todo) (identifier : String) : Option (Nat × Todo) :=
  match pyParseInt identifier with
  | some n =>
    if 0 ≤ n - 1 ∧ n - 1 < (todos.length : Int) then
      (todos[(n - 1).toNat]?).map (fun t => ((n - 1).toNat, t))
    else none
  | none => findTitleFrom todos (strLower identifier.data) 0

/-- Match a pattern of literal characters case-insensitively against the
head of the input, returning the remainder; helper for the
`re.IGNORECASE` matching of the flag literal in
`AddCommand.parse_priority_from_input`. -/

def ciStrip : List Char → List Char → Option (List Char)
  | [], cs => some cs
  | _ :: _, [] => none
  | p :: ps, c :: cs => if c.toLower = p then ciStrip ps cs else none

/-- The literal part of the regex `--priority=(\w+)`. -/

def flagPat : List Char := ['-', '-', 'p', 'r', 'i', 'o', 'r', 'i', 't', 'y', '=']

/-- Whether a character matches `\w` (ASCII model: alphanumeric or
underscore; Python's Unicode word characters are not modelled, no claim
exercises them). -/

def isWordChar (c : Char) : Bool := c.isAlphanum || c == '_'

/-- Try to match `--priority=(\w+)` (case-insensitive) at the start of the
input; on success return the captured group and the input remaining after
the whole match. -/

def matchFlagAt (cs : List Char) : Option (List Char × List Char) :=
  match ciStrip flagPat cs with
  | none => none
  | some rest =>
    let v := rest.takeWhile isWordChar
    if v.isEmpty then none else some (v, rest.dropWhile isWordChar)

/-- Model of `re.search(r'--priority=(\w+)', input, re.IGNORECASE)`: scan
left to right and return the first match's captured group. -/

def searchFlag : List Char → Option (List Char)
  | [] => none
  | c :: cs =>
    match matchFlagAt (c :: cs) with
    | some (v, _) => some v
    | none => searchFlag cs

/-- Fuelled scanner for `re.sub(r'--priority=(\w+)', '', input)`: remove
every non-overlapping match, scanning left to right.  Each step consumes at
least one character, so fuel equal to the input length (as supplied by
`subFlag`) never runs out. -/

def subFlagAux : Nat → List Char → List Char
  | _, [] => []
  | 0, cs => cs
  | Nat.succ f, c :: cs =>
    match matchFlagAt (c :: cs) with
    | some (_, rest) => subFlagAux f rest
    | none => c :: subFlagAux f cs

/-- Model of `re.sub(r'--priority=(\w+)', '', input, flags=re.IGNORECASE)`. -/

def subFlag (cs : List Char) : List Char := subFlagAux cs.length cs

/-- Model of `AddCommand.parse_priority_from_input`: if the regex finds a
flag, return the input with all flag occurrences removed and stripped,
paired with the lowercased captured value; otherwise return the stripped
input with the default priority. -/

def parsePriorityFromInput (s : String) : String × String :=
  match searchFlag s.data with
  | some v => (String.mk (trimChars (subFlag s.data)), String.mk (strLower v))
  | none => (String.mk (trimChars s.data), DEFAULT_PRIORITY)

/-- Model of `Command.get_titles_input` after the emptiness check: split
the raw input on commas, strip each piece, and drop pieces that are empty
after stripping. -/

def cleanTitles (s : String) : List String :=
  (((splitComma s.data).map trimChars).filter (fun p => !p.isEmpty)).map String.mk

/-- Model of `AddCommand.update_todos`: copy the existing list and append,
per parsed input piece, the record
`{'done': False, 'title': title, 'priority': priority}` built straight from
`parse_priority_from_input` (note: the code never calls
`validate_priority` or `create_todo_item` here). -/

def updateTodos (todos : List Todo) (titles : List String) : List Todo :=
  todos ++ titles.map (fun item =>
    { title := (parsePriorityFromInput item).1
      done := some false
      priority := some (parsePriorityFromInput item).2 })

/-- Abort causes of `AddCommand.run`: missing project file
(`ask_create_project` prints and exits before the re-run), unparseable
file, no command-line input, and input that cleans to zero pieces. -/

inductive AddErr where
  | noProject
  | readError
  | noInput
  | noValidInput
deriving DecidableEq, Repr

/-- Result of one `AddCommand.run` invocation: the project dictionaries
passed to `update_project`, in order, and the abort cause if the run
exited early. -/

structure AddOutcome where
  writes : List SaveData
  error : Option AddErr
deriving DecidableEq, Repr

/-- Model of `AddCommand.run`: read the file (absent file prompts and
exits, unparseable file reports and exits), default `name` and `todos` for
missing keys, parse titles (exiting on empty or all-empty input), then
write the extended project once.  `input` is the joined argv tail
(`get_command_attributes`), `none` when absent. -/

def addRun (file : Option FileContent) (input : Option String) : AddOutcome :=
  match file with
  | none => ⟨[], some AddErr.noProject⟩
  | some FileContent.corrupt => ⟨[], some AddErr.readError⟩
  | some (FileContent.good d) =>
    let name := d.name.getD UNTITLED_NAME
    let todos := d.todos.getD []
    match input with
    | none => ⟨[], some AddErr.noInput⟩
    | some s =>
      if s = "" then ⟨[], some AddErr.noInput⟩
      else if cleanTitles s = [] then ⟨[], some AddErr.noValidInput⟩
      else ⟨[⟨name, updateTodos todos (cleanTitles s)⟩], none⟩

/-- Split at the last space; model of `attributes.rsplit(' ', 1)` in
`PrioCommand.parse_prio_input`, which yields two parts exactly when the
input contains a space. -/

def rsplitLastSpace (cs : List Char) : Option (List Char × List Char) :=
  match (cs.reverse).drop ((cs.reverse).takeWhile (fun c => c ≠ ' ')).length with
  | ' ' :: beforeRev => some (beforeRev.reverse, ((cs.reverse).takeWhile (fun c => c ≠ ' ')).reverse)
  | _ => none

/-- Abort causes of `PrioCommand.run`. -/

inductive PrioErr where
  | projectNotFound
  | readError
  | usage
  | needBoth
  | notFound (ident : String)
  | invalidPriority (msg : String)
deriving DecidableEq, Repr

/-- Result of one `PrioCommand.run` invocation: the writes performed, the
abort cause if any, and the old priority reported on success. -/

structure PrioOutcome where
  writes : List SaveData
  error : Option PrioErr
  oldPriority : Option String
deriving DecidableEq, Repr

/-- Model of `PrioCommand.parse_prio_input`: missing or empty input prints
usage and exits; input without a space yields one part and exits; otherwise
the last space splits identifier from priority and both are stripped. -/

def parsePrioInput (input : Option String) : Except PrioErr (String × String) :=
  match input with
  | none => Except.error PrioErr.usage
  | some s =>
    if s = "" then Except.error PrioErr.usage
    else
      match rsplitLastSpace s.data with
      | none => Except.error PrioErr.needBoth
      | some (a, b) => Except.ok (String.mk (trimChars a), String.mk (trimChars b))

/-- Model of `PrioCommand.update_todo_priority`: validate the new priority
(exiting on `ValueError`) and set the `priority` field on a copy of the
record. -/

def updateTodoPriority (t : Todo) (newPriority : String) : Except String Todo :=
  match validatePriority newPriority with
  | Except.error msg => Except.error msg
  | Except.ok p => Except.ok { t with priority := some p }

/-- Model of `PrioCommand.run`: read the file, default missing keys, parse
the instruction, locate the task, remember its old priority
(`todo.get('priority', DEFAULT_PRIORITY)`), validate and update, put the
updated copy back at the located index (`todos[list_index] = updated_todo`)
and write the whole project once. -/

def prioRun (file : Option FileContent) (input : Option String) : PrioOutcome :=
  match file with
  | none => ⟨[], some PrioErr.projectNotFound, none⟩
  | some FileContent.corrupt => ⟨[], some PrioErr.readError, none⟩
  | some (FileContent.good d) =>
    let name := d.name.getD UNTITLED_NAME
    let todos := d.todos.getD []
    match parsePrioInput input with
    | Except.error e => ⟨[], some e, none⟩
    | Except.ok (taskId, newPriority) =>
      match findTodoByIdentifier todos taskId with
      | none => ⟨[], some (PrioErr.notFound taskId), none⟩
      | some (i, t) =>
        match updateTodoPriority t newPriority with
        | Except.error msg => ⟨[], some (PrioErr.invalidPriority msg), none⟩
        | Except.ok t2 => ⟨[⟨name, todos.set i t2⟩], none, some (t.priority.getD DEFAULT_PRIORITY)⟩

/-- Model of `Command.get_todos_list`: absent file gives `[]`, otherwise
the `todos` list (defaulting to `[]`) with the `priority` key added as
`medium` on every record that lacks it.  The function performs no write. -/

def getTodosList (data : Option ProjData) : List Todo :=
  match data with
  | none => []
  | some d =>
    (d.todos.getD []).map (fun t =>
      if t.priority = none then { t with priority := some DEFAULT_PRIORITY } else t)

/-- Lowercase hexadecimal digit character for `n < 16`; helper for the
`\uXXXX` escapes `json.dump` emits for control characters. -/

def hexDig (n : Nat) : Char := if n < 10 then Char.ofNat (48 + n) else Char.ofNat (87 + n)

/-- Value of a hexadecimal digit character, accepting both cases. -/

def hexVal (c : Char) : Option Nat :=
  if '0' ≤ c ∧ c ≤ '9' then some (c.toNat - 48)
  else if 'a' ≤ c ∧ c ≤ 'f' then some (c.toNat - 87)
  else if 'A' ≤ c ∧ c ≤ 'F' then some (c.toNat - 55)
  else none

/-- Escape one character of a JSON string the way `json.dump` with
`ensure_ascii=False` does: quote, backslash and the named control escapes
get two-character escapes, remaining control characters get `\u00XX`, and
every other character - non-ASCII included - is written as itself. -/

def escChar (c : Char) : List Char :=
  if c = '"' then ['\\', '"']
  else if c = '\\' then ['\\', '\\']
  else if c = '\n' then ['\\', 'n']
  else if c = '\r' then ['\\', 'r']
  else if c = '\t' then ['\\', 't']
  else if c = Char.ofNat 8 then ['\\', 'b']
  else if c = Char.ofNat 12 then ['\\', 'f']
  else if c.toNat < 32 then ['\\', 'u', '0', '0', hexDig (c.toNat / 16), hexDig (c.toNat % 16)]
  else [c]

/-- Escape a whole JSON string body. -/

def escList (cs : List Char) : List Char := cs.flatMap escChar

/-- JSON documents as the Store reads and writes them.  Strings are
character lists; numbers and null are not modelled because the Store never
writes them and no claim exercises them. -/

inductive Json where
  | bool (b : Bool)
  | str (s : List Char)
  | arr (xs : List Json)
  | obj (kvs : List (List Char × Json))

/-- Lexicographic order on strings by code point, as Python compares the
keys when `sort_keys=True`. -/

def lexLe : List Char → List Char → Bool
  | [], _ => true
  | _ :: _, [] => false
  | a :: as, b :: bs => if a < b then true else if b < a then false else lexLe as bs

/-- Insert one key-value pair in key order. -/

def insertKv (kv : List Char × Json) : List (List Char × Json) → List (List Char × Json)
  | [] => [kv]
  | b :: l => if lexLe kv.1 b.1 then kv :: b :: l else b :: insertKv kv l

/-- Sort key-value pairs by key. -/

def sortKvs : List (List Char × Json) → List (List Char × Json)
  | [] => []
  | kv :: l => insertKv kv (sortKvs l)

mutual

/-- Recursively sort every object's keys; together with `printVal` this
models `json.dump(..., sort_keys=True)`. -/
def sortJson : Json → Json
  | .bool b => .bool b
  | .str s => .str s
  | .arr xs => .arr (sortJsonItems xs)
  | .obj kvs => .obj (sortKvs (sortJsonKvs kvs))

def sortJsonItems : List Json → List Json
  | [] => []
  | x :: xs => sortJson x :: sortJsonItems xs

def sortJsonKvs : List (List Char × Json) → List (List Char × Json)
  | [] => []
  | kv :: kvs => (kv.1, sortJson kv.2) :: sortJsonKvs kvs

end

/-- A run of `n` spaces. -/

def spaces : Nat → List Char
  | 0 => []
  | n + 1 => ' ' :: spaces n

mutual

/-- Serializer for one JSON value at indentation level `ind`, following
`json.dump(new_data, f, sort_keys=True, indent=4, ensure_ascii=False)`:
containers put every element on its own line indented four further spaces,
keys are followed by a colon and one space, and strings are escaped by
`escChar` (the caller sorts keys via `sortJson` first). -/
def printVal (ind : Nat) : Json → List Char
  | .bool true => ['t', 'r', 'u', 'e']
  | .bool false => ['f', 'a', 'l', 's', 'e']
  | .str s => '"' :: (escList s ++ ['"'])
  | .arr [] => ['[', ']']
  | .arr (x :: xs) =>
    '[' :: '\n' :: (printItems (ind + 4) (x :: xs) ++ '\n' :: (spaces ind ++ [']']))
  | .obj [] => ['{' , '}']
  | .obj (kv :: kvs) =>
    '{' :: '\n' :: (printKvs (ind + 4) (kv :: kvs) ++ '\n' :: (spaces ind ++ ['}']))

def printItems (ind : Nat) : List Json → List Char
  | [] => []
  | [x] => spaces ind ++ printVal ind x
  | x :: y :: ys =>
    spaces ind ++ printVal ind x ++ ',' :: '\n' :: printItems ind (y :: ys)

def printKvs (ind : Nat) : List (List Char × Json) → List Char
  | [] => []
  | [kv] => spaces ind ++ '"' :: (escList kv.1 ++ '"' :: ':' :: ' ' :: printVal ind kv.2)
  | kv :: y :: ys =>
    (spaces ind ++ '"' :: (escList kv.1 ++ '"' :: ':' :: ' ' :: printVal ind kv.2)) ++
      ',' :: '\n' :: printKvs ind (y :: ys)

end

mutual

/-- Number of nodes of a JSON value; drives the parser fuel bound. -/
def jsize : Json → Nat
  | .bool _ => 1
  | .str _ => 1
  | .arr xs => 1 + jsizeItems xs
  | .obj kvs => 1 + jsizeKvs kvs

def jsizeItems : List Json → Nat
  | [] => 0
  | x :: xs => 1 + jsize x + jsizeItems xs

def jsizeKvs : List (List Char × Json) → Nat
  | [] => 0
  | kv :: kvs => 1 + jsize kv.2 + jsizeKvs kvs

end

/-- The whitespace characters the JSON grammar skips between tokens. -/

def isJsonWs (c : Char) : Bool := c = ' ' || c = '\t' || c = '\n' || c = '\r'

/-- Skip inter-token whitespace. -/

def skipWs (cs : List Char) : List Char := cs.dropWhile isJsonWs

/-- Whether the input starts with the given character. -/

def headIs (c : Char) : List Char → Bool
  | [] => false
  | x :: _ => x == c

/-- Parse the body of a JSON string literal after the opening quote, up to
and including the closing quote, decoding the escapes `json.load` accepts;
a raw control character is rejected as in strict-mode `json.load`
(surrogate-pair decoding of `\uXXXX` is not modelled, the Store never
emits such escapes). -/

def parseStrBody : List Char → Option (List Char × List Char)
  | [] => none
  | c :: rest =>
    if c = '"' then some ([], rest)
    else if c = '\\' then
      match rest with
      | [] => none
      | e :: r =>
        if e = '"' then (parseStrBody r).map (fun p => ('"' :: p.1, p.2))
        else if e = '\\' then (parseStrBody r).map (fun p => ('\\' :: p.1, p.2))
        else if e = '/' then (parseStrBody r).map (fun p => ('/' :: p.1, p.2))
        else if e = 'n' then (parseStrBody r).map (fun p => ('\n' :: p.1, p.2))
        else if e = 'r' then (parseStrBody r).map (fun p => ('\r' :: p.1, p.2))
        else if e = 't' then (parseStrBody r).map (fun p => ('\t' :: p.1, p.2))
        else if e = 'b' then (parseStrBody r).map (fun p => (Char.ofNat 8 :: p.1, p.2))
        else if e = 'f' then (parseStrBody r).map (fun p => (Char.ofNat 12 :: p.1, p.2))
        else if e = 'u' then
          match r with
          | h1 :: h2 :: h3 :: h4 :: r2 =>
            match hexVal h1, hexVal h2, hexVal h3, hexVal h4 with
            | some a, some b, some c2, some d =>
              (parseStrBody r2).map
                (fun p => (Char.ofNat (((a * 16 + b) * 16 + c2) * 16 + d) :: p.1, p.2))
            | _, _, _, _ => none
          | _ => none
        else none
    else if c.toNat < 32 then none
    else (parseStrBody rest).map (fun p => (c :: p.1, p.2))

mutual

/-- Fuelled recursive-descent parser for one JSON value, the model of
`json.load` on the documents the Store handles.  Each level of nesting
consumes one unit of fuel, so any fuel bound above the document's node
count (as `jsonLoads` supplies) is enough. -/
def parseVal : Nat → List Char → Option (Json × List Char)
  | 0, _ => none
  | Nat.succ fuel, cs =>
    match skipWs cs with
    | 't' :: 'r' :: 'u' :: 'e' :: rest => some (Json.bool true, rest)
    | 'f' :: 'a' :: 'l' :: 's' :: 'e' :: rest => some (Json.bool false, rest)
    | '"' :: rest => (parseStrBody rest).map (fun p => (Json.str p.1, p.2))
    | '[' :: rest =>
      if headIs ']' (skipWs rest) then some (Json.arr [], (skipWs rest).drop 1)
      else (parseArrItems fuel rest).map (fun p => (Json.arr p.1, p.2))
    | '{' :: rest =>
      if headIs '}' (skipWs rest) then some (Json.obj [], (skipWs rest).drop 1)
      else (parseObjItems fuel rest).map (fun p => (Json.obj p.1, p.2))
    | _ => none

def parseArrItems : Nat → List Char → Option (List Json × List Char)
  | 0, _ => none
  | Nat.succ fuel, cs =>
    match parseVal fuel cs with
    | none => none
    | some (v, r) =>
      if headIs ',' (skipWs r) then
        match parseArrItems fuel ((skipWs r).drop 1) with
        | none => none
        | some (vs, r3) => some (v :: vs, r3)
      else if headIs ']' (skipWs r) then some ([v], (skipWs r).drop 1)
      else none

def parseObjItems : Nat → List Char → Option (List (List Char × Json) × List Char)
  | 0, _ => none
  | Nat.succ fuel, cs =>
    if headIs '"' (skipWs cs) then
      match parseStrBody ((skipWs cs).drop 1) with
      | none => none
      | some (k, r) =>
        if headIs ':' (skipWs r) then
          match parseVal fuel ((skipWs r).drop 1) with
          | none => none
          | some (v, r3) =>
            if headIs ',' (skipWs r3) then
              match parseObjItems fuel ((skipWs r3).drop 1) with
              | none => none
              | some (kvs, r5) => some ((k, v) :: kvs, r5)
            else if headIs '}' (skipWs r3) then some ([(k, v)], (skipWs r3).drop 1)
            else none
        else none
    else none

end

/-- Model of `json.dump(..., sort_keys=True, indent=4, ensure_ascii=False)`
to a byte (character) sequence. -/

def jsonDumps (v : Json) : List Char := printVal 0 (sortJson v)

/-- Model of `json.load`: parse one value and require only whitespace
after it. -/

def jsonLoads (cs : List Char) : Option Json :=
  match parseVal (cs.length + 1) cs with
  | none => none
  | some (v, rest) => if (skipWs rest).isEmpty then some v else none

/-- JSON document for one task record, with the keys present in storage:
`done` and `priority` are omitted when the record lacks them, `title` is
always present.  The key order `done < priority < title` is already
alphabetical. -/

def taskToJson (t : Todo) : Json :=
  Json.obj
    ((match t.done with
      | some b => [("done".data, Json.bool b)]
      | none => []) ++
     (match t.priority with
      | some p => [("priority".data, Json.str p.data)]
      | none => []) ++
     [("title".data, Json.str t.title.data)])

/-- JSON document for a whole project dictionary
`{'name': ..., 'todos': [...]}`. -/

def projToJson (d : SaveData) : Json :=
  Json.obj [("name".data, Json.str d.name.data),
    ("todos".data, Json.arr (d.todos.map taskToJson))]

/-- Bytes written by `Command.update_project` for a project dictionary. -/

def dumpProject (d : SaveData) : List Char := jsonDumps (projToJson d)

/-- Content of the project file after a run, given its writes in order:
the last write overwrites the whole file, no write leaves it untouched. -/

def fileAfter (orig : List Char) (writes : List SaveData) : List Char :=
  match writes.getLast? with
  | none => orig
  | some d => dumpProject d

/-- First character a value prints as; used to show the parser's lookahead
never confuses a value with a closing bracket. -/

def jsonHead : Json → Char
  | .bool true => 't'
  | .bool false => 'f'
  | .str _ => '"'
  | .arr _ => '['
  | .obj _ => '{'

theorem keyLE_refl (a : Bool × Nat) : keyLE a a := Or.inr ⟨rfl, Nat.le_refl _⟩

theorem keyLE_total (a b : Bool × Nat) : keyLE a b ∨ keyLE b a := by
  obtain ⟨a1, a2⟩ := a
  obtain ⟨b1, b2⟩ := b
  cases a1 <;> cases b1 <;> simp [keyLE] <;> omega

theorem keyLE_trans {a b c : Bool × Nat} (h1 : keyLE a b) (h2 : keyLE b c) : keyLE a c := by
  obtain ⟨a1, a2⟩ := a
  obtain ⟨b1, b2⟩ := b
  obtain ⟨c1, c2⟩ := c
  cases a1 <;> cases b1 <;> cases c1 <;> simp_all [keyLE] <;> omega

theorem orderedInsertKey_perm (a : Todo) (l : List Todo) :
    (orderedInsertKey a l).Perm (a :: l) := by
  induction l with
  | nil => simp [orderedInsertKey]
  | cons b t ih =>
    by_cases h : keyLE (sortKey a) (sortKey b)
    · simp [orderedInsertKey, h]
    · simp only [orderedInsertKey, if_neg h]
      exact (ih.cons b).trans (List.Perm.swap a b t)

theorem mem_orderedInsertKey {x a : Todo} {l : List Todo}
    (h : x ∈ orderedInsertKey a l) : x = a ∨ x ∈ l := by
  have := (orderedInsertKey_perm a l).mem_iff.mp h
  simpa using this

theorem orderedInsertKey_sorted (a : Todo) (l : List Todo)
    (h : List.Pairwise (fun x y => keyLE (sortKey x) (sortKey y)) l) :
    List.Pairwise (fun x y => keyLE (sortKey x) (sortKey y)) (orderedInsertKey a l) := by
  induction l with
  | nil => simp [orderedInsertKey]
  | cons b t ih =>
    rcases List.pairwise_cons.mp h with ⟨hb, ht⟩
    by_cases hab : keyLE (sortKey a) (sortKey b)
    · simp only [orderedInsertKey, if_pos hab]
      refine List.pairwise_cons.mpr ⟨?_, h⟩
      intro y hy
      rcases List.mem_cons.mp hy with rfl | hy
      · exact hab
      · exact keyLE_trans hab (hb y hy)
    · simp only [orderedInsertKey, if_neg hab]
      refine List.pairwise_cons.mpr ⟨?_, ih ht⟩
      intro y hy
      rcases mem_orderedInsertKey hy with hya | hy
      · rw [hya]
        exact (keyLE_total (sortKey a) (sortKey b)).resolve_left hab
      · exact hb y hy

theorem orderedInsertKey_filter (a : Todo) (l : List Todo) (k : Bool × Nat) :
    (orderedInsertKey a l).filter (fun t => decide (sortKey t = k)) =
      if sortKey a = k then a :: l.filter (fun t => decide (sortKey t = k))
      else l.filter (fun t => decide (sortKey t = k)) := by
  induction l with
  | nil => by_cases hk : sortKey a = k <;> simp [orderedInsertKey, hk]
  | cons b t ih =>
    by_cases hab : keyLE (sortKey a) (sortKey b)
    · simp only [orderedInsertKey, if_pos hab]
      by_cases hk : sortKey a = k <;> simp [List.filter_cons, hk]
    · simp only [orderedInsertKey, if_neg hab]
      by_cases hk : sortKey a = k
      · have hbk : sortKey b ≠ k := by
          intro hbk
          exact hab (hk ▸ hbk ▸ keyLE_refl (sortKey b))
        simp [List.filter_cons, hk, hbk, ih]
      · by_cases hbk : sortKey b = k <;> simp [List.filter_cons, hk, hbk, ih]

theorem sortTodosByPriority_perm (l : List Todo) : (sortTodosByPriority l).Perm l := by
  induction l with
  | nil => simp [sortTodosByPriority]
  | cons a t ih =>
    exact (orderedInsertKey_perm a (sortTodosByPriority t)).trans (ih.cons a)

theorem sortTodosByPriority_sorted (l : List Todo) :
    List.Pairwise (fun x y => keyLE (sortKey x) (sortKey y)) (sortTodosByPriority l) := by
  induction l with
  | nil => simp [sortTodosByPriority]
  | cons a t ih => exact orderedInsertKey_sorted a _ ih

theorem sortTodosByPriority_stable (l : List Todo) (k : Bool × Nat) :
    (sortTodosByPriority l).filter (fun t => decide (sortKey t = k)) =
      l.filter (fun t => decide (sortKey t = k)) := by
  induction l with
  | nil => rfl
  | cons a t ih =>
    rw [sortTodosByPriority, orderedInsertKey_filter, ih]
    by_cases hk : sortKey a = k <;> simp [List.filter_cons, hk]

/-- Claim C4: `sort_todos_by_priority` is a stable sort of the task list
under the key `(done, priority-rank)` with rank high=0, medium=1, low=2:
the output is a permutation of the input, ordered so that all incomplete
tasks precede all complete tasks and within each completion bucket high
precedes medium precedes low (pairwise `keyLE` of the keys), tasks with
equal keys keep their input order (filtering any fixed key commutes with
the sort), and the spec's concrete example sorts as stated. -/

theorem claim_C4 :
    (priorityRank "high" = 0 ∧ priorityRank "medium" = 1 ∧ priorityRank "low" = 2) ∧
    (∀ l : List Todo,
      (sortTodosByPriority l).Perm l ∧
      List.Pairwise (fun x y => keyLE (sortKey x) (sortKey y)) (sortTodosByPriority l) ∧
      (∀ k : Bool × Nat,
        (sortTodosByPriority l).filter (fun t => decide (sortKey t = k)) =
          l.filter (fun t => decide (sortKey t = k)))) ∧
    sortTodosByPriority
        [⟨"m", some false, some "medium"⟩, ⟨"h1", some true, some "high"⟩,
         ⟨"l", some false, some "low"⟩, ⟨"h2", some false, some "high"⟩] =
      [⟨"h2", some false, some "high"⟩, ⟨"m", some false, some "medium"⟩,
       ⟨"l", some false, some "low"⟩, ⟨"h1", some true, some "high"⟩] :=
  ⟨⟨rfl, rfl, rfl⟩,
   fun l => ⟨sortTodosByPriority_perm l, sortTodosByPriority_sorted l,
     fun k => sortTodosByPriority_stable l k⟩,
   by decide⟩

/-- Claim C10: the sort key is total on malformed records: a priority value
outside the enum gets rank 1 (the same ordinal as `medium`), a missing
`done` flag is treated as `false`, and such tasks are therefore ordered
among the incomplete medium-priority tasks (concrete instance: a task with
priority `urgent` and no `done` flag keeps its place between the
medium-priority incomplete tasks around it). -/

theorem claim_C10 :
    (∀ (t : Todo) (p : String), t.priority = some p → p ∉ PRIORITY_LEVELS →
      sortKey t = (t.done.getD false, 1)) ∧
    (∀ t : Todo, t.done = none → (sortKey t).1 = false) ∧
    (∀ t : Todo, t.priority = some "urgent" → t.done = none →
      sortKey t = sortKey ⟨t.title, some false, some "medium"⟩) ∧
    sortTodosByPriority
        [⟨"m1", some false, some "medium"⟩, ⟨"x", none, some "urgent"⟩,
         ⟨"m2", some false, some "medium"⟩, ⟨"h", some false, some "high"⟩] =
      [⟨"h", some false, some "high"⟩, ⟨"m1", some false, some "medium"⟩,
       ⟨"x", none, some "urgent"⟩, ⟨"m2", some false, some "medium"⟩] := by
  refine ⟨?_, ?_, ?_, by decide⟩
  · intro t p hp hmem
    have h1 : p ≠ "high" := fun h => hmem (by simp [PRIORITY_LEVELS, h])
    have h2 : p ≠ "medium" := fun h => hmem (by simp [PRIORITY_LEVELS, h])
    have h3 : p ≠ "low" := fun h => hmem (by simp [PRIORITY_LEVELS, h])
    simp [sortKey, hp, priorityRank, h1, h2, h3]
  · intro t h
    simp [sortKey, h]
  · intro t hp hd
    simp [sortKey, hp, hd, priorityRank, DEFAULT_PRIORITY]

/-- Claim C10 witness: the general parts applied at a concrete malformed
record. -/

theorem claim_C10_witness :
    sortKey ⟨"x", some false, some "urgent"⟩ = (false, 1) ∧
    (sortKey ⟨"y", none, some "high"⟩).1 = false ∧
    sortKey ⟨"x", none, some "urgent"⟩ = sortKey ⟨"x", some false, some "medium"⟩ :=
  ⟨claim_C10.1 ⟨"x", some false, some "urgent"⟩ "urgent" rfl (by decide),
   claim_C10.2.1 ⟨"y", none, some "high"⟩ rfl,
   claim_C10.2.2.1 ⟨"x", none, some "urgent"⟩ rfl rfl⟩

/-- Claim C8: for every string whose (ASCII) lowercase form is one of the
three enum values, `validate_priority` returns that canonical lowercase
value; for every other string it raises `ValueError` carrying the rejected
value and the accepted set.  The function reads no state and mutates no
state: it is a pure function of its argument in the code and is embedded as
one. -/

theorem claim_C8 (p : String) :
    (∀ c ∈ PRIORITY_LEVELS, strLower p.data = c.data → validatePriority p = Except.ok c) ∧
    (strLower p.data ∉ PRIORITY_LEVELS.map String.data →
      validatePriority p = Except.error (invalidPriorityMessage p)) := by
  constructor
  · intro c hc h
    have hmk : String.mk (strLower p.data) = c := by
      cases c
      exact congrArg String.mk h
    simp [validatePriority, hmk, hc]
  · intro h
    have hmem : String.mk (strLower p.data) ∉ PRIORITY_LEVELS := by
      intro hm
      exact h (List.mem_map.mpr ⟨String.mk (strLower p.data), hm, rfl⟩)
    simp [validatePriority, hmem]

/-- Claim C8 witness: a mixed-case valid value normalizes, an out-of-enum
value is rejected with the message carrying it and the accepted set. -/

theorem claim_C8_witness :
    validatePriority "HIGH" = Except.ok "high" ∧
    validatePriority "urgent" =
      Except.error "Invalid priority: urgent. Must be one of: low, medium, high" :=
  ⟨(claim_C8 "HIGH").1 "high" (by decide) (by decide),
   (claim_C8 "urgent").2 (by decide)⟩

theorem findTitleFrom_some :
    ∀ (ts : List Todo) (key : List Char) (i j : Nat) (t : Todo),
      findTitleFrom ts key i = some (j, t) →
      i ≤ j ∧ ts[j - i]? = some t ∧ strLower t.title.data = key ∧
        ∀ j2, i ≤ j2 → j2 < j → ∀ t2, ts[j2 - i]? = some t2 → strLower t2.title.data ≠ key := by
  intro ts
  induction ts with
  | nil => intro key i j t h; simp [findTitleFrom] at h
  | cons t0 ts ih =>
    intro key i j t h
    by_cases h0 : strLower t0.title.data = key
    · rw [findTitleFrom, if_pos h0] at h
      obtain ⟨rfl, rfl⟩ : i = j ∧ t0 = t := by
        constructor <;> [exact congrArg Prod.fst (Option.some.inj h);
          exact congrArg Prod.snd (Option.some.inj h)]
      refine ⟨Nat.le_refl _, by simp, h0, ?_⟩
      intro j2 hj2 hj2' t2 _
      omega
    · rw [findTitleFrom, if_neg h0] at h
      obtain ⟨hij, hget, hkey, hmin⟩ := ih key (i + 1) j t h
      refine ⟨by omega, ?_, hkey, ?_⟩
      · have hji : j - i = (j - (i + 1)) + 1 := by omega
        rw [hji]
        simpa using hget
      · intro j2 hj2 hj2' t2 hget2
        by_cases hj2i : j2 = i
        · subst hj2i
          simp at hget2
          rw [← hget2]
          exact h0
        · have hj2s : j2 - i = (j2 - (i + 1)) + 1 := by omega
          rw [hj2s] at hget2
          simp at hget2
          exact hmin j2 (by omega) hj2' t2 (by simpa using hget2)

theorem findTitleFrom_none :
    ∀ (ts : List Todo) (key : List Char) (i : Nat),
      findTitleFrom ts key i = none → ∀ t ∈ ts, strLower t.title.data ≠ key := by
  intro ts
  induction ts with
  | nil => intro key i _ t ht; simp at ht
  | cons t0 ts ih =>
    intro key i h t ht
    by_cases h0 : strLower t0.title.data = key
    · rw [findTitleFrom, if_pos h0] at h
      exact absurd h (by simp)
    · rw [findTitleFrom, if_neg h0] at h
      rcases List.mem_cons.mp ht with rfl | ht
      · exact h0
      · exact ih key (i + 1) h t ht

/-- Claim C3: `find_todo_by_identifier` resolves an identifier that parses
as an integer `n` exactly when `1 <= n <= len(todos)`, returning the task
at 0-based slot `n-1` (so `"1"` on a non-empty list returns the first
element, `"0"` always fails, and `str(len+1)` always fails); an identifier
that does not parse as an integer resolves to the first task in list order
whose title matches case-insensitively and exactly, and fails if there is
none. -/

theorem claim_C3 :
    (∀ (todos : List Todo) (ident : String) (n : Int), pyParseInt ident = some n →
      findTodoByIdentifier todos ident =
        if 1 ≤ n ∧ n ≤ (todos.length : Int) then
          (todos[(n - 1).toNat]?).map (fun t => ((n - 1).toNat, t))
        else none) ∧
    (∀ (todos : List Todo) (ident : String), pyParseInt ident = none →
      (∀ j t, findTodoByIdentifier todos ident = some (j, t) →
        todos[j]? = some t ∧ strLower t.title.data = strLower ident.data ∧
          ∀ j2 t2, j2 < j → todos[j2]? = some t2 →
            strLower t2.title.data ≠ strLower ident.data) ∧
      (findTodoByIdentifier todos ident = none →
        ∀ t ∈ todos, strLower t.title.data ≠ strLower ident.data)) ∧
    (∀ todos : List Todo, todos ≠ [] →
      findTodoByIdentifier todos "1" = (todos[0]?).map (fun t => (0, t))) ∧
    (∀ todos : List Todo, findTodoByIdentifier todos "0" = none) ∧
    (∀ (todos : List Todo) (ident : String),
      pyParseInt ident = some ((todos.length : Int) + 1) →
      findTodoByIdentifier todos ident = none) := by
  have hint : ∀ (todos : List Todo) (ident : String) (n : Int), pyParseInt ident = some n →
      findTodoByIdentifier todos ident =
        if 1 ≤ n ∧ n ≤ (todos.length : Int) then
          (todos[(n - 1).toNat]?).map (fun t => ((n - 1).toNat, t))
        else none := by
    intro todos ident n h
    simp only [findTodoByIdentifier, h]
    by_cases hc : 1 ≤ n ∧ n ≤ (todos.length : Int)
    · rw [if_pos (by omega), if_pos hc]
    · rw [if_neg (by omega), if_neg hc]
  refine ⟨hint, ?_, ?_, ?_, ?_⟩
  · intro todos ident h
    constructor
    · intro j t hfind
      simp only [findTodoByIdentifier, h] at hfind
      obtain ⟨_, hget, hkey, hmin⟩ := findTitleFrom_some todos _ 0 j t hfind
      refine ⟨by simpa using hget, hkey, ?_⟩
      intro j2 t2 hj2 hget2
      exact hmin j2 (Nat.zero_le _) hj2 t2 (by simpa using hget2)
    · intro hfind
      simp only [findTodoByIdentifier, h] at hfind
      exact findTitleFrom_none todos _ 0 hfind
  · intro todos hne
    have h1 : pyParseInt "1" = some 1 := by decide
    rw [hint todos "1" 1 h1, if_pos]
    · norm_num
    · have : 0 < todos.length := List.length_pos.mpr hne
      omega
  · intro todos
    have h0 : pyParseInt "0" = some 0 := by decide
    rw [hint todos "0" 0 h0, if_neg]
    intro hc
    omega
  · intro todos ident h
    rw [hint todos ident _ h, if_neg]
    intro hc
    omega

/-- Claim C3 witness: the locate algorithm applied on a concrete two-task
list, exercising the integer branch, the title branch, and the two
out-of-range positions. -/

theorem claim_C3_witness :
    findTodoByIdentifier
        [⟨"Buy milk", some false, some "high"⟩, ⟨"Do laundry", some true, none⟩] "2" =
      some (1, ⟨"Do laundry", some true, none⟩) ∧
    findTodoByIdentifier
        [⟨"Buy milk", some false, some "high"⟩, ⟨"Do laundry", some true, none⟩] "1" =
      some (0, ⟨"Buy milk", some false, some "high"⟩) ∧
    findTodoByIdentifier
        [⟨"Buy milk", some false, some "high"⟩, ⟨"Do laundry", some true, none⟩] "0" = none ∧
    findTodoByIdentifier
        [⟨"Buy milk", some false, some "high"⟩, ⟨"Do laundry", some true, none⟩] "3" = none ∧
    ([⟨"Buy milk", some false, some "high"⟩, ⟨"Do laundry", some true, none⟩] :
        List Todo)[1]? = some ⟨"Do laundry", some true, none⟩ := by
  refine ⟨(claim_C3.1 _ "2" 2 (by decide)).trans (by decide),
    (claim_C3.2.2.1 _ (by decide)).trans (by decide),
    claim_C3.2.2.2.1 _,
    claim_C3.2.2.2.2 _ "3" (by decide),
    ((claim_C3.2.1 _ "do LAUNDRY" (by decide)).1 1 ⟨"Do laundry", some true, none⟩
      (by decide)).1⟩

theorem findTodoByIdentifier_get {todos : List Todo} {ident : String} {i : Nat} {t : Todo}
    (h : findTodoByIdentifier todos ident = some (i, t)) :
    todos[i]? = some t ∧ i < todos.length := by
  cases hp : pyParseInt ident with
  | some n =>
    simp only [findTodoByIdentifier, hp] at h
    by_cases hc : 0 ≤ n - 1 ∧ n - 1 < (todos.length : Int)
    · rw [if_pos hc] at h
      rcases Option.map_eq_some'.mp h with ⟨t0, hg, hft⟩
      obtain ⟨rfl, rfl⟩ := Prod.mk.inj hft
      exact ⟨hg, by omega⟩
    · rw [if_neg hc] at h
      simp at h
  | none =>
    simp only [findTodoByIdentifier, hp] at h
    obtain ⟨_, hget, _, _⟩ := findTitleFrom_some todos _ 0 i t h
    simp only [Nat.sub_zero] at hget
    refine ⟨hget, ?_⟩
    rcases List.getElem?_eq_some.mp hget with ⟨hlt, _⟩
    exact hlt

theorem validatePriority_ok {s p : String} (h : validatePriority s = Except.ok p) :
    p ∈ PRIORITY_LEVELS ∧ p = String.mk (strLower s.data) := by
  simp only [validatePriority] at h
  by_cases hm : String.mk (strLower s.data) ∈ PRIORITY_LEVELS
  · rw [if_pos hm] at h
    cases h
    exact ⟨hm, rfl⟩
  · rw [if_neg hm] at h
    exact absurd h (by simp)

theorem prioRun_success (d : ProjData) (input : Option String)
    (h : (prioRun (some (FileContent.good d)) input).error = none) :
    ∃ taskId newPriority i t p,
      parsePrioInput input = Except.ok (taskId, newPriority) ∧
      findTodoByIdentifier (d.todos.getD []) taskId = some (i, t) ∧
      validatePriority newPriority = Except.ok p ∧
      (prioRun (some (FileContent.good d)) input).writes =
        [⟨d.name.getD UNTITLED_NAME, (d.todos.getD []).set i { t with priority := some p }⟩] ∧
      (prioRun (some (FileContent.good d)) input).oldPriority =
        some (t.priority.getD DEFAULT_PRIORITY) := by
  cases hp : parsePrioInput input with
  | error e => simp [prioRun, hp] at h
  | ok pr =>
    obtain ⟨taskId, newPriority⟩ := pr
    cases hf : findTodoByIdentifier (d.todos.getD []) taskId with
    | none => simp [prioRun, hp, hf] at h
    | some it =>
      obtain ⟨i, t⟩ := it
      cases hv : validatePriority newPriority with
      | error msg => simp [prioRun, hp, hf, updateTodoPriority, hv] at h
      | ok p =>
        refine ⟨taskId, newPriority, i, t, p, ?_, hf, hv, ?_, ?_⟩
        · first
          | exact hp
          | rfl
        · simp [prioRun, hp, hf, updateTodoPriority, hv]
        · simp [prioRun, hp, hf, updateTodoPriority, hv]

/-- Claim C5: a successful priority change writes back exactly the loaded
project with one task replaced in place: the located task keeps its title
and done flag and only its priority field is replaced (by a canonical enum
value), every other slot of the list is unchanged, the list length (hence
order of the untouched tasks) is unchanged, and the project name written is
the loaded one. -/

theorem claim_C5 (d : ProjData) (input : Option String)
    (h : (prioRun (some (FileContent.good d)) input).error = none) :
    ∃ i t p, (d.todos.getD [])[i]? = some t ∧ i < (d.todos.getD []).length ∧
      p ∈ PRIORITY_LEVELS ∧
      (prioRun (some (FileContent.good d)) input).writes =
        [⟨d.name.getD UNTITLED_NAME,
          (d.todos.getD []).set i { t with priority := some p }⟩] ∧
      ((d.todos.getD []).set i { t with priority := some p }).length =
        (d.todos.getD []).length ∧
      (∀ j, j ≠ i →
        ((d.todos.getD []).set i { t with priority := some p })[j]? =
          (d.todos.getD [])[j]?) ∧
      ({ t with priority := some p } : Todo).title = t.title ∧
      ({ t with priority := some p } : Todo).done = t.done := by
  obtain ⟨taskId, newPriority, i, t, p, _, hf, hv, hw, _⟩ := prioRun_success d input h
  obtain ⟨hget, hlt⟩ := findTodoByIdentifier_get hf
  refine ⟨i, t, p, hget, hlt, (validatePriority_ok hv).1, hw, by simp, ?_, rfl, rfl⟩
  intro j hj
  exact List.getElem?_set_ne hj.symm

/-- Claim C5 witness: changing `"Buy milk"` to `"LOW"` on a concrete
two-task project succeeds, so the frame conditions hold there. -/

theorem claim_C5_witness :
    ∃ i t p,
      (((⟨some "P", some [⟨"Buy milk", some false, some "high"⟩,
          ⟨"Legacy", some true, none⟩]⟩ : ProjData)).todos.getD [])[i]? = some t ∧
      i < (((⟨some "P", some [⟨"Buy milk", some false, some "high"⟩,
          ⟨"Legacy", some true, none⟩]⟩ : ProjData)).todos.getD []).length ∧
      p ∈ PRIORITY_LEVELS ∧
      (prioRun (some (FileContent.good ⟨some "P", some [⟨"Buy milk", some false, some "high"⟩,
          ⟨"Legacy", some true, none⟩]⟩)) (some "Buy milk LOW")).writes =
        [⟨(⟨some "P", some [⟨"Buy milk", some false, some "high"⟩,
            ⟨"Legacy", some true, none⟩]⟩ : ProjData).name.getD UNTITLED_NAME,
          ((⟨some "P", some [⟨"Buy milk", some false, some "high"⟩,
            ⟨"Legacy", some true, none⟩]⟩ : ProjData).todos.getD []).set i
            { t with priority := some p }⟩] ∧
      (((⟨some "P", some [⟨"Buy milk", some false, some "high"⟩,
          ⟨"Legacy", some true, none⟩]⟩ : ProjData).todos.getD []).set i
          { t with priority := some p }).length =
        ((⟨some "P", some [⟨"Buy milk", some false, some "high"⟩,
          ⟨"Legacy", some true, none⟩]⟩ : ProjData).todos.getD []).length ∧
      (∀ j, j ≠ i →
        (((⟨some "P", some [⟨"Buy milk", some false, some "high"⟩,
            ⟨"Legacy", some true, none⟩]⟩ : ProjData).todos.getD []).set i
            { t with priority := some p })[j]? =
          ((⟨some "P", some [⟨"Buy milk", some false, some "high"⟩,
            ⟨"Legacy", some true, none⟩]⟩ : ProjData).todos.getD [])[j]?) ∧
      ({ t with priority := some p } : Todo).title = t.title ∧
      ({ t with priority := some p } : Todo).done = t.done :=
  claim_C5 ⟨some "P", some [⟨"Buy milk", some false, some "high"⟩,
    ⟨"Legacy", some true, none⟩]⟩ (some "Buy milk LOW") (by decide)

/-- Claim C7: a task record lacking `priority` is exposed as `medium`
everywhere: `get_todos_list` fills the field with `medium` in the returned
list (and performs no write by construction), the sort key of such a record
equals the sort key of the same record with explicit `medium`, and a
successful priority change reports the located task's old priority through
the same `medium` default while writing every other record back exactly as
loaded (an untouched record missing `priority` is persisted still missing
it). -/

theorem claim_C7 :
    (∀ (d : ProjData) (j : Nat) (t0 : Todo), (d.todos.getD [])[j]? = some t0 →
      (getTodosList (some d))[j]? =
        some (if t0.priority = none then { t0 with priority := some DEFAULT_PRIORITY }
          else t0)) ∧
    (∀ t : Todo, t.priority = none →
      sortKey t = sortKey { t with priority := some DEFAULT_PRIORITY }) ∧
    (∀ (d : ProjData) (input : Option String),
      (prioRun (some (FileContent.good d)) input).error = none →
      ∃ taskId newPriority i t,
        parsePrioInput input = Except.ok (taskId, newPriority) ∧
        findTodoByIdentifier (d.todos.getD []) taskId = some (i, t) ∧
        (prioRun (some (FileContent.good d)) input).oldPriority =
          some (t.priority.getD DEFAULT_PRIORITY) ∧
        ∀ w ∈ (prioRun (some (FileContent.good d)) input).writes,
          ∀ j, j ≠ i → w.todos[j]? = (d.todos.getD [])[j]?) := by
  refine ⟨?_, ?_, ?_⟩
  · intro d j t0 h
    simp [getTodosList, List.getElem?_map, h]
  · intro t h
    simp [sortKey, h]
  · intro d input h
    obtain ⟨taskId, newPriority, i, t, p, hp, hf, _, hw, hold⟩ := prioRun_success d input h
    refine ⟨taskId, newPriority, i, t, hp, hf, hold, ?_⟩
    intro w hwmem j hj
    rw [hw] at hwmem
    rcases List.mem_singleton.mp hwmem with rfl
    exact List.getElem?_set_ne hj.symm

/-- Claim C7 witness: the defaulting applied to a concrete legacy record
(no `priority` field), through loading, sorting, and a priority change that
targets the other task and leaves the legacy record untouched on disk. -/

theorem claim_C7_witness :
    (getTodosList (some ⟨some "P", some [⟨"Legacy", some true, none⟩]⟩))[0]? =
      some (if (⟨"Legacy", some true, none⟩ : Todo).priority = none then
        { (⟨"Legacy", some true, none⟩ : Todo) with priority := some DEFAULT_PRIORITY }
        else ⟨"Legacy", some true, none⟩) ∧
    sortKey ⟨"Legacy", some true, none⟩ =
      sortKey { (⟨"Legacy", some true, none⟩ : Todo) with priority := some DEFAULT_PRIORITY } ∧
    ∃ taskId newPriority i t,
      parsePrioInput (some "Legacy high") = Except.ok (taskId, newPriority) ∧
      findTodoByIdentifier
        ((⟨some "P", some [⟨"Legacy", some true, none⟩]⟩ : ProjData).todos.getD [])
        taskId = some (i, t) ∧
      (prioRun (some (FileContent.good ⟨some "P", some [⟨"Legacy", some true, none⟩]⟩))
        (some "Legacy high")).oldPriority = some (t.priority.getD DEFAULT_PRIORITY) ∧
      ∀ w ∈ (prioRun (some (FileContent.good ⟨some "P", some [⟨"Legacy", some true, none⟩]⟩))
          (some "Legacy high")).writes,
        ∀ j, j ≠ i → w.todos[j]? =
          ((⟨some "P", some [⟨"Legacy", some true, none⟩]⟩ : ProjData).todos.getD [])[j]? :=
  ⟨claim_C7.1 ⟨some "P", some [⟨"Legacy", some true, none⟩]⟩ 0
      ⟨"Legacy", some true, none⟩ (by decide),
   claim_C7.2.1 ⟨"Legacy", some true, none⟩ rfl,
   claim_C7.2.2 ⟨some "P", some [⟨"Legacy", some true, none⟩]⟩ (some "Legacy high")
      (by decide)⟩

/-- Claim C1 counterevidence: `AddCommand.update_todos` builds the new
record directly from `parse_priority_from_input` and never calls
`validate_priority` (nor `create_todo_item`), so an inline flag value
outside the enum is neither rejected nor normalized away: on the input
`"Buy milk --priority=urgent"` the append operation builds and persists a
task whose priority `"urgent"` is outside `PRIORITY_LEVELS`, reports no
error, even though the Priority Policy itself rejects that very value. -/

theorem claim_C1 :
    parsePriorityFromInput "Buy milk --priority=urgent" = ("Buy milk", "urgent") ∧
    "urgent" ∉ PRIORITY_LEVELS ∧
    validatePriority "urgent" = Except.error (invalidPriorityMessage "urgent") ∧
    addRun (some (FileContent.good ⟨some "P", some []⟩))
        (some "Buy milk --priority=urgent") =
      ⟨[⟨"P", [⟨"Buy milk", some false, some "urgent"⟩]⟩], none⟩ := by
  refine ⟨by decide, by decide, by rfl, by decide⟩

/-- Claim C6: the append operation splits its input on commas, strips each
piece, discards pieces that are empty after stripping, strips the inline
priority flag out of the title, defaults the priority to `medium` when no
flag is present, marks every new task `done=false`, and appends the new
tasks in input order to the end of the existing list; the spec's concrete
example produces exactly the two tasks claimed, in order. -/

theorem claim_C6 :
    (∀ (todos : List Todo) (titles : List String),
      (updateTodos todos titles).take todos.length = todos ∧
      (updateTodos todos titles).length = todos.length + titles.length ∧
      ∀ t ∈ (updateTodos todos titles).drop todos.length, t.done = some false) ∧
    (∀ piece : String, searchFlag piece.data = none →
      parsePriorityFromInput piece = (String.mk (trimChars piece.data), DEFAULT_PRIORITY)) ∧
    cleanTitles " a ,,  b c  , " = ["a", "b c"] ∧
    cleanTitles "Buy milk --priority=high, Do laundry" =
      ["Buy milk --priority=high", "Do laundry"] ∧
    addRun (some (FileContent.good ⟨some "P", some []⟩))
        (some "Buy milk --priority=high, Do laundry") =
      ⟨[⟨"P", [⟨"Buy milk", some false, some "high"⟩,
        ⟨"Do laundry", some false, some "medium"⟩]⟩], none⟩ := by
  refine ⟨?_, ?_, by decide, by decide, by decide⟩
  · intro todos titles
    refine ⟨?_, ?_, ?_⟩
    · simp [updateTodos]
    · simp [updateTodos]
    · intro t ht
      simp only [updateTodos, List.drop_left] at ht
      rcases List.mem_map.mp ht with ⟨item, _, rfl⟩
      rfl
  · intro piece h
    simp [parsePriorityFromInput, h]

/-- Claim C6 witness: the no-flag default applied at a concrete piece, and
the structural facts applied at a concrete append. -/

theorem claim_C6_witness :
    parsePriorityFromInput "Do laundry" =
      (String.mk (trimChars "Do laundry".data), DEFAULT_PRIORITY) ∧
    (updateTodos [⟨"Old", some true, some "low"⟩] ["New one", "New two"]).take 1 =
      [⟨"Old", some true, some "low"⟩] ∧
    (updateTodos [⟨"Old", some true, some "low"⟩] ["New one", "New two"]).length = 1 + 2 ∧
    ∀ t ∈ (updateTodos [⟨"Old", some true, some "low"⟩] ["New one", "New two"]).drop 1,
      t.done = some false :=
  ⟨claim_C6.2.1 "Do laundry" (by decide),
   (claim_C6.1 [⟨"Old", some true, some "low"⟩] ["New one", "New two"]).1,
   (claim_C6.1 [⟨"Old", some true, some "low"⟩] ["New one", "New two"]).2.1,
   (claim_C6.1 [⟨"Old", some true, some "low"⟩] ["New one", "New two"]).2.2⟩

theorem escList_cons (c : Char) (cs : List Char) :
    escList (c :: cs) = escChar c ++ escList cs := rfl

theorem hexVal_hexDig {n : Nat} (h : n < 16) : hexVal (hexDig n) = some n := by
  interval_cases n <;> rfl

theorem parseStrBody_escList (s : List Char) (rest : List Char) :
    parseStrBody (escList s ++ '"' :: rest) = some (s, rest) := by
  induction s with
  | nil =>
    show parseStrBody ('"' :: rest) = some ([], rest)
    rw [parseStrBody.eq_def]
    simp
  | cons c cs ih =>
    rw [escList_cons, List.append_assoc]
    by_cases hq : c = '"'
    · subst hq
      show parseStrBody ('\\' :: '"' :: (escList cs ++ '"' :: rest)) = _
      rw [parseStrBody.eq_def]
      simp [ih]
    · by_cases hb : c = '\\'
      · subst hb
        show parseStrBody ('\\' :: '\\' :: (escList cs ++ '"' :: rest)) = _
        rw [parseStrBody.eq_def]
        simp [ih]
      · by_cases hn : c = '\n'
        · subst hn
          show parseStrBody ('\\' :: 'n' :: (escList cs ++ '"' :: rest)) = _
          rw [parseStrBody.eq_def]
          simp [ih]
        · by_cases hr : c = '\r'
          · subst hr
            show parseStrBody ('\\' :: 'r' :: (escList cs ++ '"' :: rest)) = _
            rw [parseStrBody.eq_def]
            simp [ih]
          · by_cases ht : c = '\t'
            · subst ht
              show parseStrBody ('\\' :: 't' :: (escList cs ++ '"' :: rest)) = _
              rw [parseStrBody.eq_def]
              simp [ih]
            · by_cases hbs : c = Char.ofNat 8
              · subst hbs
                show parseStrBody ('\\' :: 'b' :: (escList cs ++ '"' :: rest)) = _
                rw [parseStrBody.eq_def]
                simp [ih]
              · by_cases hf : c = Char.ofNat 12
                · subst hf
                  show parseStrBody ('\\' :: 'f' :: (escList cs ++ '"' :: rest)) = _
                  rw [parseStrBody.eq_def]
                  simp [ih]
                · by_cases hc : c.toNat < 32
                  · have h16 : c.toNat / 16 < 16 := by omega
                    have h16b : c.toNat % 16 < 16 := by omega
                    simp only [escChar, if_neg hq, if_neg hb, if_neg hn, if_neg hr,
                      if_neg ht, if_neg hbs, if_neg hf, if_pos hc, List.cons_append,
                      List.nil_append]
                    rw [parseStrBody.eq_def]
                    simp [hexVal_hexDig h16, hexVal_hexDig h16b, ih]
                    have harith :
                        ((0 * 16 + 0) * 16 + c.toNat / 16) * 16 + c.toNat % 16 = c.toNat := by
                      omega
                    rw [show hexVal '0' = some 0 from rfl]
                    simp only [harith, Char.ofNat_toNat]
                  · simp only [escChar, if_neg hq, if_neg hb, if_neg hn, if_neg hr,
                      if_neg ht, if_neg hbs, if_neg hf, if_neg hc, List.cons_append,
                      List.nil_append]
                    rw [parseStrBody.eq_def]
                    simp [hq, hb, hc, ih]

theorem skipWs_cons_ws {c : Char} (h : isJsonWs c = true) (cs : List Char) :
    skipWs (c :: cs) = skipWs cs := by
  simp [skipWs, List.dropWhile_cons, h]

theorem skipWs_not_ws {c : Char} (h : isJsonWs c = false) (cs : List Char) :
    skipWs (c :: cs) = c :: cs := by
  simp [skipWs, List.dropWhile_cons, h]

theorem skipWs_spaces (n : Nat) (cs : List Char) : skipWs (spaces n ++ cs) = skipWs cs := by
  induction n with
  | zero => rfl
  | succ n ih =>
    show skipWs (' ' :: (spaces n ++ cs)) = skipWs cs
    rw [skipWs_cons_ws (by rfl : isJsonWs ' ' = true), ih]

theorem printVal_head (ind : Nat) (v : Json) :
    ∃ tail, printVal ind v = jsonHead v :: tail := by
  cases v with
  | bool b => cases b <;> exact ⟨_, rfl⟩
  | str s => exact ⟨_, rfl⟩
  | arr xs => cases xs <;> exact ⟨_, rfl⟩
  | obj kvs => cases kvs <;> exact ⟨_, rfl⟩

theorem jsonHead_not_ws (v : Json) : isJsonWs (jsonHead v) = false := by
  cases v with
  | bool b => cases b <;> rfl
  | str s => rfl
  | arr xs => rfl
  | obj kvs => rfl

theorem skipWs_printVal (ind : Nat) (v : Json) (rest : List Char) :
    skipWs (printVal ind v ++ rest) = printVal ind v ++ rest := by
  obtain ⟨tail, h⟩ := printVal_head ind v
  rw [h, List.cons_append, skipWs_not_ws (jsonHead_not_ws v), ← List.cons_append, ← h]

theorem jsonHead_ne_rbracket (v : Json) : (jsonHead v == ']') = false := by
  cases v with
  | bool b => cases b <;> rfl
  | str s => rfl
  | arr xs => rfl
  | obj kvs => rfl

theorem jsonHead_ne_rbrace (v : Json) : (jsonHead v == '}') = false := by
  cases v with
  | bool b => cases b <;> rfl
  | str s => rfl
  | arr xs => rfl
  | obj kvs => rfl

theorem jsize_pos (v : Json) : 1 ≤ jsize v := by
  cases v <;> simp [jsize]

theorem jsizeItems_pos (x : Json) (xs : List Json) : 1 ≤ jsizeItems (x :: xs) := by
  simp [jsizeItems]
  omega

theorem printItems_cons_shape (ind : Nat) (x : Json) (xs : List Json) :
    ∃ tail, printItems ind (x :: xs) = spaces ind ++ (printVal ind x ++ tail) := by
  cases xs with
  | nil => exact ⟨[], by simp [printItems]⟩
  | cons y ys =>
    exact ⟨',' :: '\n' :: printItems ind (y :: ys), by simp [printItems, List.append_assoc]⟩

theorem printKvs_cons_shape (ind : Nat) (k : List Char) (v : Json)
    (kvs : List (List Char × Json)) :
    ∃ tail, printKvs ind ((k, v) :: kvs) =
      spaces ind ++ ('"' :: (escList k ++ '"' :: ':' :: ' ' :: (printVal ind v ++ tail))) := by
  cases kvs with
  | nil => exact ⟨[], by simp [printKvs]⟩
  | cons y ys =>
    exact ⟨',' :: '\n' :: printKvs ind (y :: ys), by simp [printKvs, List.append_assoc]⟩

theorem parse_print (fuel : Nat) :
    (∀ v, jsize v ≤ fuel → ∀ ind cs rest,
      skipWs cs = printVal ind v ++ rest → parseVal fuel cs = some (v, rest)) ∧
    (∀ x xs, jsizeItems (x :: xs) ≤ fuel → ∀ ind ind2 rest,
      parseArrItems fuel
        ('\n' :: (printItems ind (x :: xs) ++ '\n' :: (spaces ind2 ++ ']' :: rest))) =
        some (x :: xs, rest)) ∧
    (∀ k v2 kvs, jsizeKvs ((k, v2) :: kvs) ≤ fuel → ∀ ind ind2 rest,
      parseObjItems fuel
        ('\n' :: (printKvs ind ((k, v2) :: kvs) ++ '\n' :: (spaces ind2 ++ '}' :: rest))) =
        some ((k, v2) :: kvs, rest)) := by
  induction fuel with
  | zero =>
    refine ⟨?_, ?_, ?_⟩
    · intro v hv
      have := jsize_pos v
      omega
    · intro x xs hv
      have := jsizeItems_pos x xs
      omega
    · intro k v2 kvs hv
      simp [jsizeKvs] at hv
  | succ f ih =>
    obtain ⟨ih1, ih2, ih3⟩ := ih
    refine ⟨?_, ?_, ?_⟩
    · intro v hv ind cs rest h
      cases v with
      | bool b =>
        cases b
        · rw [show printVal ind (Json.bool false) = ['f','a','l','s','e'] from rfl] at h
          simp only [List.cons_append, List.nil_append] at h
          simp only [parseVal]
          rw [h]
          rfl
        · rw [show printVal ind (Json.bool true) = ['t','r','u','e'] from rfl] at h
          simp only [List.cons_append, List.nil_append] at h
          simp only [parseVal]
          rw [h]
          rfl
      | str s =>
        rw [show printVal ind (Json.str s) = '"' :: (escList s ++ ['"']) from rfl] at h
        simp only [List.cons_append, List.append_assoc, List.singleton_append] at h
        simp only [parseVal]
        rw [h]
        simp [parseStrBody_escList]
      | arr xs =>
        cases xs with
        | nil =>
          rw [show printVal ind (Json.arr []) = ['[', ']'] from rfl] at h
          simp only [List.cons_append, List.nil_append] at h
          simp only [parseVal]
          rw [h]
          show (if headIs ']' (skipWs (']' :: rest)) = true
              then some (Json.arr [], List.drop 1 (skipWs (']' :: rest)))
              else Option.map (fun p => (Json.arr p.1, p.2)) (parseArrItems f (']' :: rest))) =
            some (Json.arr [], rest)
          rw [skipWs_not_ws (by rfl) rest]
          simp [headIs]
        | cons x xs =>
          rw [show printVal ind (Json.arr (x :: xs)) =
            '[' :: '\n' :: (printItems (ind + 4) (x :: xs) ++ '\n' :: (spaces ind ++ [']']))
            from rfl] at h
          simp only [List.cons_append, List.append_assoc, List.singleton_append,
            List.nil_append] at h
          simp only [parseVal]
          rw [h]
          show (if headIs ']' (skipWs ('\n' :: (printItems (ind + 4) (x :: xs) ++
                '\n' :: (spaces ind ++ ']' :: rest)))) = true
              then some (Json.arr [], List.drop 1 (skipWs ('\n' ::
                (printItems (ind + 4) (x :: xs) ++ '\n' :: (spaces ind ++ ']' :: rest)))))
              else Option.map (fun p => (Json.arr p.1, p.2)) (parseArrItems f ('\n' ::
                (printItems (ind + 4) (x :: xs) ++ '\n' :: (spaces ind ++ ']' :: rest))))) =
            some (Json.arr (x :: xs), rest)
          obtain ⟨tail, htail⟩ := printItems_cons_shape (ind + 4) x xs
          obtain ⟨vtail, hvtail⟩ := printVal_head (ind + 4) x
          have hskip : skipWs ('\n' :: (printItems (ind + 4) (x :: xs) ++
              '\n' :: (spaces ind ++ ']' :: rest))) =
              jsonHead x :: (vtail ++ (tail ++ '\n' :: (spaces ind ++ ']' :: rest))) := by
            rw [skipWs_cons_ws (by rfl), htail, List.append_assoc, skipWs_spaces,
              List.append_assoc, skipWs_printVal, hvtail, List.cons_append]
          rw [hskip]
          rw [show headIs ']' (jsonHead x ::
            (vtail ++ (tail ++ '\n' :: (spaces ind ++ ']' :: rest)))) =
            (jsonHead x == ']') from rfl]
          rw [jsonHead_ne_rbracket]
          simp only [Bool.false_eq_true, if_false]
          have hsz : jsizeItems (x :: xs) ≤ f := by
            simp only [jsize] at hv
            omega
          rw [ih2 x xs hsz (ind + 4) ind rest]
          rfl
      | obj kvs =>
        cases kvs with
        | nil =>
          rw [show printVal ind (Json.obj []) = ['{', '}'] from rfl] at h
          simp only [List.cons_append, List.nil_append] at h
          simp only [parseVal]
          rw [h]
          show (if headIs '}' (skipWs ('}' :: rest)) = true
              then some (Json.obj [], List.drop 1 (skipWs ('}' :: rest)))
              else Option.map (fun p => (Json.obj p.1, p.2)) (parseObjItems f ('}' :: rest))) =
            some (Json.obj [], rest)
          rw [skipWs_not_ws (by rfl) rest]
          simp [headIs]
        | cons kv kvs2 =>
          obtain ⟨k, v2⟩ := kv
          rw [show printVal ind (Json.obj ((k, v2) :: kvs2)) =
            '{' :: '\n' :: (printKvs (ind + 4) ((k, v2) :: kvs2) ++
              '\n' :: (spaces ind ++ ['}'])) from rfl] at h
          simp only [List.cons_append, List.append_assoc, List.singleton_append,
            List.nil_append] at h
          simp only [parseVal]
          rw [h]
          show (if headIs '}' (skipWs ('\n' :: (printKvs (ind + 4) ((k, v2) :: kvs2) ++
                '\n' :: (spaces ind ++ '}' :: rest)))) = true
              then some (Json.obj [], List.drop 1 (skipWs ('\n' ::
                (printKvs (ind + 4) ((k, v2) :: kvs2) ++ '\n' :: (spaces ind ++ '}' :: rest)))))
              else Option.map (fun p => (Json.obj p.1, p.2)) (parseObjItems f ('\n' ::
                (printKvs (ind + 4) ((k, v2) :: kvs2) ++ '\n' :: (spaces ind ++ '}' :: rest))))) =
            some (Json.obj ((k, v2) :: kvs2), rest)
          obtain ⟨tail, htail⟩ := printKvs_cons_shape (ind + 4) k v2 kvs2
          have hskip : skipWs ('\n' :: (printKvs (ind + 4) ((k, v2) :: kvs2) ++
              '\n' :: (spaces ind ++ '}' :: rest))) =
              '"' :: ((escList k ++ '"' :: ':' :: ' ' :: (printVal (ind + 4) v2 ++ tail)) ++
                '\n' :: (spaces ind ++ '}' :: rest)) := by
            rw [skipWs_cons_ws (by rfl), htail, List.append_assoc, skipWs_spaces,
              List.cons_append, skipWs_not_ws (by rfl)]
          rw [hskip]
          rw [show headIs '}' ('"' :: ((escList k ++ '"' :: ':' :: ' ' ::
            (printVal (ind + 4) v2 ++ tail)) ++ '\n' :: (spaces ind ++ '}' :: rest))) =
            false from rfl]
          simp only [Bool.false_eq_true, if_false]
          have hsz : jsizeKvs ((k, v2) :: kvs2) ≤ f := by
            simp only [jsize] at hv
            omega
          rw [ih3 k v2 kvs2 hsz (ind + 4) ind rest]
          rfl
    · intro x xs hsz ind ind2 rest
      cases xs with
      | nil =>
        have hjx : jsize x ≤ f := by
          simp only [jsizeItems] at hsz
          omega
        have hskip : skipWs ('\n' :: (printItems ind [x] ++
            '\n' :: (spaces ind2 ++ ']' :: rest))) =
            printVal ind x ++ '\n' :: (spaces ind2 ++ ']' :: rest) := by
          rw [show printItems ind [x] = spaces ind ++ printVal ind x from by
            simp [printItems]]
          rw [skipWs_cons_ws (by rfl), List.append_assoc, skipWs_spaces, skipWs_printVal]
        have hclose : skipWs ('\n' :: (spaces ind2 ++ ']' :: rest)) = ']' :: rest := by
          rw [skipWs_cons_ws (by rfl), skipWs_spaces, skipWs_not_ws (by rfl)]
        simp only [parseArrItems]
        simp only [ih1 x hjx ind _ ('\n' :: (spaces ind2 ++ ']' :: rest)) hskip]
        simp [hclose, headIs]
      | cons y ys =>
        have hjx : jsize x ≤ f := by
          simp only [jsizeItems] at hsz
          omega
        have hsz2 : jsizeItems (y :: ys) ≤ f := by
          simp only [jsizeItems] at hsz ⊢
          have := jsize_pos x
          omega
        have hitem : printItems ind (x :: y :: ys) =
            spaces ind ++ (printVal ind x ++
              ',' :: '\n' :: printItems ind (y :: ys)) := by
          simp [printItems, List.append_assoc]
        have hskip : skipWs ('\n' :: (printItems ind (x :: y :: ys) ++
            '\n' :: (spaces ind2 ++ ']' :: rest))) =
            printVal ind x ++ ',' :: '\n' :: (printItems ind (y :: ys) ++
              '\n' :: (spaces ind2 ++ ']' :: rest)) := by
          rw [skipWs_cons_ws (by rfl), hitem, List.append_assoc, skipWs_spaces,
            List.append_assoc, skipWs_printVal]
          simp [List.append_assoc]
        have hcomma : skipWs (',' :: '\n' :: (printItems ind (y :: ys) ++
            '\n' :: (spaces ind2 ++ ']' :: rest))) =
            ',' :: '\n' :: (printItems ind (y :: ys) ++
              '\n' :: (spaces ind2 ++ ']' :: rest)) :=
          skipWs_not_ws (by rfl) _
        simp only [parseArrItems]
        simp only [ih1 x hjx ind _
          (',' :: '\n' :: (printItems ind (y :: ys) ++
            '\n' :: (spaces ind2 ++ ']' :: rest))) hskip]
        simp only [hcomma, headIs]
        simp only [List.drop_succ_cons, List.drop_zero]
        simp only [ih2 y ys hsz2 ind ind2 rest]
        simp
    · intro k v2 kvs hsz ind ind2 rest
      obtain ⟨tail, htail⟩ := printKvs_cons_shape ind k v2 kvs
      have hjv : jsize v2 ≤ f := by
        simp only [jsizeKvs] at hsz
        omega
      have hskip : skipWs ('\n' :: (printKvs ind ((k, v2) :: kvs) ++
          '\n' :: (spaces ind2 ++ '}' :: rest))) =
          '"' :: (escList k ++ '"' :: (':' :: ' ' :: (printVal ind v2 ++ (tail ++
            '\n' :: (spaces ind2 ++ '}' :: rest))))) := by
        rw [skipWs_cons_ws (by rfl), htail, List.append_assoc, skipWs_spaces,
          List.cons_append, skipWs_not_ws (by rfl)]
        simp [List.append_assoc]
      have hcolon : skipWs (':' :: ' ' :: (printVal ind v2 ++ (tail ++
          '\n' :: (spaces ind2 ++ '}' :: rest)))) =
          ':' :: ' ' :: (printVal ind v2 ++ (tail ++
            '\n' :: (spaces ind2 ++ '}' :: rest))) :=
        skipWs_not_ws (by rfl) _
      have hskip2 : skipWs (' ' :: (printVal ind v2 ++ (tail ++
          '\n' :: (spaces ind2 ++ '}' :: rest)))) =
          printVal ind v2 ++ (tail ++ '\n' :: (spaces ind2 ++ '}' :: rest)) := by
        rw [skipWs_cons_ws (by rfl), skipWs_printVal]
      simp only [parseObjItems]
      simp only [hskip, headIs]
      simp only [List.drop_succ_cons, List.drop_zero]
      simp only [parseStrBody_escList]
      simp only [hcolon, headIs]
      simp only [List.drop_succ_cons, List.drop_zero]
      simp only [ih1 v2 hjv ind _ (tail ++ '\n' :: (spaces ind2 ++ '}' :: rest)) hskip2]
      cases kvs with
      | nil =>
        have htail0 : tail = [] := by
          rw [show printKvs ind [(k, v2)] =
            spaces ind ++ ('"' :: (escList k ++ '"' :: ':' :: ' ' ::
              (printVal ind v2 ++ []))) from by simp [printKvs]] at htail
          have := List.append_inj_right htail rfl
          simpa using this
        subst htail0
        have hclose : skipWs ('\n' :: (spaces ind2 ++ '}' :: rest)) =
            '}' :: rest := by
          rw [skipWs_cons_ws (by rfl), skipWs_spaces, skipWs_not_ws (by rfl)]
        simp [hclose, headIs]
      | cons kv2 kvs3 =>
        obtain ⟨k2, u⟩ := kv2
        have htail2 : tail = ',' :: '\n' :: printKvs ind ((k2, u) :: kvs3) := by
          rw [show printKvs ind ((k, v2) :: (k2, u) :: kvs3) =
            spaces ind ++ ('"' :: (escList k ++ '"' :: ':' :: ' ' ::
              (printVal ind v2 ++ (',' :: '\n' :: printKvs ind ((k2, u) :: kvs3)))))
            from by simp [printKvs, List.append_assoc]] at htail
          have := List.append_inj_right htail rfl
          simpa using this.symm
        subst htail2
        have hsz3 : jsizeKvs ((k2, u) :: kvs3) ≤ f := by
          simp only [jsizeKvs] at hsz ⊢
          have := jsize_pos v2
          omega
        have hcomma : skipWs ((',' :: '\n' :: printKvs ind ((k2, u) :: kvs3)) ++
            '\n' :: (spaces ind2 ++ '}' :: rest)) =
            ',' :: ('\n' :: printKvs ind ((k2, u) :: kvs3) ++
              '\n' :: (spaces ind2 ++ '}' :: rest)) := by
          rw [List.cons_append, skipWs_not_ws (by rfl)]
        simp only [hcomma, headIs]
        simp only [List.drop_succ_cons, List.drop_zero]
        have hrec := ih3 k2 u kvs3 hsz3 ind ind2 rest
        simp only [List.cons_append] at hrec ⊢
        simp only [hrec]
        simp

theorem spaces_length (n : Nat) : (spaces n).length = n := by
  induction n with
  | zero => rfl
  | succ n ih => simp [spaces, ih]

theorem jsize_lt_len (fuel : Nat) :
    (∀ v, jsize v ≤ fuel → ∀ ind, jsize v < (printVal ind v).length) ∧
    (∀ xs, jsizeItems xs ≤ fuel → ∀ ind, jsizeItems xs ≤ (printItems ind xs).length) ∧
    (∀ kvs, jsizeKvs kvs ≤ fuel → ∀ ind, jsizeKvs kvs ≤ (printKvs ind kvs).length) := by
  induction fuel with
  | zero =>
    refine ⟨?_, ?_, ?_⟩
    · intro v hv
      have := jsize_pos v
      omega
    · intro xs hv ind
      cases xs with
      | nil => simp [jsizeItems, printItems]
      | cons x xs =>
        have := jsizeItems_pos x xs
        omega
    · intro kvs hv ind
      cases kvs with
      | nil => simp [jsizeKvs, printKvs]
      | cons kv kvs =>
        simp [jsizeKvs] at hv
  | succ f ih =>
    obtain ⟨ih1, ih2, ih3⟩ := ih
    refine ⟨?_, ?_, ?_⟩
    · intro v hv ind
      cases v with
      | bool b => cases b <;> simp [jsize, printVal]
      | str s => simp [jsize, printVal]
      | arr xs =>
        cases xs with
        | nil => simp [jsize, jsizeItems, printVal]
        | cons x xs =>
          have hx : jsizeItems (x :: xs) ≤ f := by
            simp only [jsize] at hv
            omega
          have := ih2 (x :: xs) hx (ind + 4)
          simp only [jsize, printVal, List.length_cons, List.length_append,
            spaces_length]
          omega
      | obj kvs =>
        cases kvs with
        | nil => simp [jsize, jsizeKvs, printVal]
        | cons kv kvs =>
          have hx : jsizeKvs (kv :: kvs) ≤ f := by
            simp only [jsize] at hv
            omega
          have := ih3 (kv :: kvs) hx (ind + 4)
          simp only [jsize, printVal, List.length_cons, List.length_append,
            spaces_length]
          omega
    · intro xs hv ind
      cases xs with
      | nil => simp [jsizeItems, printItems]
      | cons x xs =>
        have hx : jsize x ≤ f := by
          simp only [jsizeItems] at hv
          omega
        have h1 := ih1 x hx ind
        cases xs with
        | nil =>
          simp only [jsizeItems, printItems, List.length_append, spaces_length]
          omega
        | cons y ys =>
          have hys : jsizeItems (y :: ys) ≤ f := by
            simp only [jsizeItems] at hv ⊢
            have := jsize_pos x
            omega
          have h2 := ih2 (y :: ys) hys ind
          simp only [jsizeItems, printItems, List.length_append, List.length_cons,
            spaces_length] at h2 ⊢
          omega
    · intro kvs hv ind
      cases kvs with
      | nil => simp [jsizeKvs, printKvs]
      | cons kv kvs =>
        have hx : jsize kv.2 ≤ f := by
          simp only [jsizeKvs] at hv
          omega
        have h1 := ih1 kv.2 hx ind
        cases kvs with
        | nil =>
          simp only [jsizeKvs, printKvs, List.length_append, List.length_cons,
            spaces_length]
          omega
        | cons kv2 kvs2 =>
          have hys : jsizeKvs (kv2 :: kvs2) ≤ f := by
            simp only [jsizeKvs] at hv ⊢
            have := jsize_pos kv.2
            omega
          have h2 := ih3 (kv2 :: kvs2) hys ind
          simp only [jsizeKvs, printKvs, List.length_append, List.length_cons,
            spaces_length] at h2 ⊢
          omega

theorem jsonLoads_printVal (v : Json) : jsonLoads (printVal 0 v) = some v := by
  have hlen : jsize v < (printVal 0 v).length := (jsize_lt_len (jsize v)).1 v (Nat.le_refl _) 0
  have hws : skipWs (printVal 0 v) = printVal 0 v ++ [] := by
    rw [List.append_nil]
    have := skipWs_printVal 0 v []
    rw [List.append_nil] at this
    exact this
  have h1 := (parse_print ((printVal 0 v).length + 1)).1 v (by omega) 0 (printVal 0 v) [] hws
  simp [jsonLoads, h1, skipWs]

theorem jsonLoads_jsonDumps (v : Json) : jsonLoads (jsonDumps v) = some (sortJson v) :=
  jsonLoads_printVal (sortJson v)

theorem sortJson_taskToJson (t : Todo) : sortJson (taskToJson t) = taskToJson t := by
  obtain ⟨title, done, priority⟩ := t
  cases done <;> cases priority <;> rfl

theorem sortJsonItems_map_task (l : List Todo) :
    sortJsonItems (l.map taskToJson) = l.map taskToJson := by
  induction l with
  | nil => rfl
  | cons t ts ih => simp [sortJsonItems, sortJson_taskToJson, ih]

theorem sortJson_projToJson (d : SaveData) : sortJson (projToJson d) = projToJson d := by
  obtain ⟨name, todos⟩ := d
  simp only [projToJson, sortJson, sortJsonKvs, sortJsonItems]
  rw [sortJsonItems_map_task]
  rfl

theorem jsonLoads_dumpProject (d : SaveData) :
    jsonLoads (dumpProject d) = some (projToJson d) := by
  rw [dumpProject, jsonLoads_jsonDumps, sortJson_projToJson]

/-- Claim C9: the save/load round trip is lossless and deterministic:
loading the bytes `update_project` wrote for a project yields exactly that
project's document (so saving again reproduces the same bytes, including
for task records missing `priority`, which the writer leaves absent), the
document's keys are already alphabetically sorted so the key-sorting writer
is the identity on them, every character outside quote, backslash and the
control range is written unescaped (so non-ASCII text passes through), and
a concrete project prints with 4-space indentation, alphabetical keys and
raw non-ASCII exactly as `json.dump(..., sort_keys=True, indent=4,
ensure_ascii=False)` does. -/

theorem claim_C9 (P : SaveData) :
    jsonLoads (dumpProject P) = some (projToJson P) ∧
    (∃ v, jsonLoads (dumpProject P) = some v ∧ jsonDumps v = dumpProject P) ∧
    sortJson (projToJson P) = projToJson P ∧
    (∀ c : Char, 32 ≤ c.toNat → c ≠ '"' → c ≠ '\\' → escChar c = [c]) ∧
    dumpProject ⟨"Prøjeçt ✓", [⟨"Tâche", some false, none⟩]⟩ =
      ("\x7b\n    \"name\": \"Prøjeçt ✓\",\n    \"todos\": [\n        \x7b\n            \"done\": false,\n            \"title\": \"Tâche\"\n        \x7d\n    ]\n\x7d").data := by
  refine ⟨jsonLoads_dumpProject P,
    ⟨projToJson P, jsonLoads_dumpProject P, ?_⟩,
    sortJson_projToJson P, ?_, by decide⟩
  · show jsonDumps (projToJson P) = dumpProject P
    rfl
  · intro c h32 hq hb
    have hn : c ≠ '\n' := fun h => by subst h; exact absurd h32 (by decide)
    have hr : c ≠ '\r' := fun h => by subst h; exact absurd h32 (by decide)
    have ht : c ≠ '\t' := fun h => by subst h; exact absurd h32 (by decide)
    have hbs : c ≠ Char.ofNat 8 := fun h => by subst h; exact absurd h32 (by decide)
    have hf : c ≠ Char.ofNat 12 := fun h => by subst h; exact absurd h32 (by decide)
    have hlt : ¬c.toNat < 32 := by omega
    simp [escChar, hq, hb, hn, hr, ht, hbs, hf, hlt]

/-- Claim C9 witness: the round trip and the unescaped-non-ASCII fact at a
concrete project and character. -/

theorem claim_C9_witness :
    jsonLoads (dumpProject ⟨"Prøjeçt ✓", [⟨"Tâche", some false, none⟩]⟩) =
      some (projToJson ⟨"Prøjeçt ✓", [⟨"Tâche", some false, none⟩]⟩) ∧
    escChar 'é' = ['é'] :=
  ⟨(claim_C9 ⟨"Prøjeçt ✓", [⟨"Tâche", some false, none⟩]⟩).1,
   (claim_C9 ⟨"x", []⟩).2.2.2.1 'é' (by decide) (by decide) (by decide)⟩

/-- Claim C2: every abort path of the append and priority-change runs
(missing project file, unparseable file, missing or empty or unsplittable
input, task not found, invalid priority) performs no write at all, so the
on-disk project file stays byte-identical to its pre-operation state; the
single write happens only on the fully validated success path. -/

theorem claim_C2 (file : Option FileContent) (input : Option String) (orig : List Char) :
    ((addRun file input).error.isSome →
      (addRun file input).writes = [] ∧
      fileAfter orig (addRun file input).writes = orig) ∧
    ((prioRun file input).error.isSome →
      (prioRun file input).writes = [] ∧
      fileAfter orig (prioRun file input).writes = orig) := by
  constructor
  · intro h
    have hw : (addRun file input).writes = [] := by
      cases file with
      | none => rfl
      | some fc =>
        cases fc with
        | corrupt => rfl
        | good d =>
          cases input with
          | none => rfl
          | some s =>
            by_cases h1 : s = ""
            · simp [addRun, h1]
            · by_cases h2 : cleanTitles s = []
              · simp [addRun, h1, h2]
              · simp [addRun, h1, h2] at h
    exact ⟨hw, by simp [fileAfter, hw]⟩
  · intro h
    have hw : (prioRun file input).writes = [] := by
      cases file with
      | none => rfl
      | some fc =>
        cases fc with
        | corrupt => rfl
        | good d =>
          cases hp : parsePrioInput input with
          | error e => simp [prioRun, hp]
          | ok pr =>
            obtain ⟨taskId, newPriority⟩ := pr
            cases hf : findTodoByIdentifier (d.todos.getD []) taskId with
            | none => simp [prioRun, hp, hf]
            | some it =>
              obtain ⟨i, t⟩ := it
              cases hv : validatePriority newPriority with
              | error msg => simp [prioRun, hp, hf, updateTodoPriority, hv]
              | ok p => simp [prioRun, hp, hf, updateTodoPriority, hv] at h
    exact ⟨hw, by simp [fileAfter, hw]⟩

/-- Claim C2 witness: four concrete abort paths (append with no project
file, priority change on a corrupt file, append whose input cleans to
nothing, priority change with an out-of-enum priority) each leave the file
bytes untouched. -/

theorem claim_C2_witness :
    ((addRun none (some "Task")).writes = [] ∧
      fileAfter "orig".data (addRun none (some "Task")).writes = "orig".data) ∧
    ((prioRun (some FileContent.corrupt) (some "1 high")).writes = [] ∧
      fileAfter "orig".data (prioRun (some FileContent.corrupt) (some "1 high")).writes =
        "orig".data) ∧
    ((addRun (some (FileContent.good ⟨some "P", some []⟩)) (some " , , ")).writes = [] ∧
      fileAfter "orig".data
        (addRun (some (FileContent.good ⟨some "P", some []⟩)) (some " , , ")).writes =
        "orig".data) ∧
    ((prioRun (some (FileContent.good ⟨some "P", some [⟨"A", some false, none⟩]⟩))
        (some "A urgent")).writes = [] ∧
      fileAfter "orig".data
        (prioRun (some (FileContent.good ⟨some "P", some [⟨"A", some false, none⟩]⟩))
          (some "A urgent")).writes = "orig".data) :=
  ⟨(claim_C2 none (some "Task") "orig".data).1 (by decide),
   (claim_C2 (some FileContent.corrupt) (some "1 high") "orig".data).2 (by decide),
   (claim_C2 (some (FileContent.good ⟨some "P", some []⟩)) (some " , , ") "orig".data).1
     (by decide),
   (claim_C2 (some (FileContent.good ⟨some "P", some [⟨"A", some false, none⟩]⟩))
     (some "A urgent") "orig".data).2 (by decide)⟩
